/-
Verification of the transfer-learning notebook
`src/resources/deep-learning/Colorectal Histology.ipynb`.

The notebook is a linear script: a dataset indexer (CLASS_NAMES), a split
loader (ImageDataGenerator / flow_from_directory), a model assembler
(feature extractor + Dense head), a training driver (model.fit with the
CollectBatchStats callback) and an evaluation/report loop over validation
batches.  Each piece is embedded below as an executable Lean definition,
mirroring the notebook cell it comes from; behaviour that lives in the
third-party library (Keras) rather than in the notebook is modelled from
the specification and marked as such in the doc comment.
-/
import Mathlib

namespace ColorectalHistology

/-! ## Shared helpers: numpy argmax and Python str.title -/

/-- Helper for `argmax`: scans the remaining list, keeping the index
(`best`) and value (`bestVal`) of the current maximum; a strictly larger
value replaces it, so ties keep the first occurrence, as `np.argmax` does. -/
def argmaxAux : List ℚ → ℕ → ℕ → ℚ → ℕ
  | [], _, best, _ => best
  | x :: xs, i, best, bestVal =>
      if bestVal < x then argmaxAux xs (i + 1) i x
      else argmaxAux xs (i + 1) best bestVal

/-- Numpy argmax (`np.argmax(xs, axis=-1)`) applied to one vector: the
index of the first maximal element (0 on the empty vector, a case the
notebook never produces). -/
def argmax : List ℚ → ℕ
  | [] => 0
  | x :: xs => argmaxAux xs 1 0 x

/-- Helper for `pyTitle`: `prevAlpha` records whether the previous character
was alphabetic; a character following an alphabetic one is lowercased and
any other is uppercased, as the Python method str.title does on ASCII text. -/
def pyTitleAux : List Char → Bool → List Char
  | [], _ => []
  | c :: cs, prevAlpha =>
      (if prevAlpha then c.toLower else c.toUpper) :: pyTitleAux cs c.isAlpha

/-- The Python method `str.title()` restricted to ASCII strings. -/
def pyTitle (s : String) : String := ⟨pyTitleAux s.data false⟩

/-! ## Evaluation/report loop (last notebook cell)

For one sample `n` of a batch the loop executes
```
predicted_id = np.argmax(predicted_batch, axis=-1)
label_id = np.argmax(label_batch, axis=-1)
color = "green" if predicted_id[n] == label_id[n] else "red"
title = predicted_label_batch[n].title() if predicted_id[n] == label_id[n]
        else predicted_label_batch[n].title() + "(" + class_names[label_id[n]] + ")"
plt.title(predicted_label_batch[n].title(), color=color)
```
`renderSample` records both the local variable `title` (which is computed
and never used) and the string actually handed to `plt.title`. -/

/-- What the loop produces for one sample: the colour passed to
`plt.title`, the string actually passed to `plt.title`, and the value of
the local variable `title` (computed by the source but not used). -/
structure SampleRender where
  renderedTitle : String
  color : String
  computedTitle : String
  deriving Repr, DecidableEq

/-- Default string used where the embedding needs a total version of a
Python list indexing (the notebook never indexes out of range). -/
def emptyStr : String := ""

/-- One iteration of the inner `for n in range(...)` loop of the
evaluation cell, for a sample with model output `probs` and one-hot label
`label`, given the ordered `class_names` array of the cell. -/
def renderSample (class_names : List String) (probs label : List ℚ) :
    SampleRender :=
  let predicted_id := argmax probs
  let label_id := argmax label
  let predicted_label := class_names.getD predicted_id emptyStr
  let color := if predicted_id = label_id then "green" else "red"
  let title :=
    if predicted_id = label_id then pyTitle predicted_label
    else pyTitle predicted_label ++ "(" ++ class_names.getD label_id emptyStr ++ ")"
  { renderedTitle := pyTitle predicted_label
    color := color
    computedTitle := title }

/-- A decoded image: rows of pixels, each pixel a list of channel values
in ℚ (already rescaled to the unit interval by the loader). -/
abbrev Image := List (List (List ℚ))

/-- One `(image_batch, label_batch)` pair yielded by `val_data_gen`. -/
structure EvalBatch where
  images : List Image
  labels : List (List ℚ)

/-- One figure produced per batch by the evaluation cell: the suptitle and
the per-sample annotations placed on the 8 by 4 subplot grid. -/
structure Grid where
  suptitle : String
  cells : List SampleRender

/-- The figure the evaluation cell renders for one batch: the inner loop
runs `for n in range(image_batch.shape[0])`, annotating sample `n` from
the model output `predict` and the one-hot label. -/
def renderGrid (class_names : List String) (predict : Image → List ℚ)
    (batch_count : ℕ) (b : EvalBatch) : Grid :=
  { suptitle := "Model predictions (green: correct, red: incorrect) for batch "
      ++ toString batch_count
    cells := (List.range b.images.length).map fun n =>
      renderSample class_names (predict (b.images.getD n []))
        (b.labels.getD n []) }

/-- The `for image_batch, label_batch in val_data_gen` loop of the last
cell: it increments `batch_count`, renders a grid, and executes
`if batch_count == 2: break`.  The function returns the rendered grids
together with the batches the loop never consumed (the underlying Keras
sequence is logically infinite; a list argument is a prefix of it that is
long enough, which the break makes irrelevant beyond two elements). -/
def evalLoop (class_names : List String) (predict : Image → List ℚ) :
    List EvalBatch → ℕ → List Grid × List EvalBatch
  | [], _ => ([], [])
  | b :: rest, batch_count =>
      let bc := batch_count + 1
      let g := renderGrid class_names predict bc b
      if bc = 2 then ([g], rest)
      else
        let p := evalLoop class_names predict rest bc
        (g :: p.1, p.2)

/-! ## Split loader (cell `BATCH_SIZE = 32 ...`)

The notebook configures `ImageDataGenerator(rescale=1./255,
validation_split=0.2)` and calls `flow_from_directory` twice with
`seed=2020`, `batch_size=BATCH_SIZE`, `target_size=(224,224)`,
`classes=list(CLASS_NAMES)` and `subset` equal to `training` / `validation`. -/

def BATCH_SIZE : ℕ := 32

def IMG_HEIGHT : ℕ := 224

def IMG_WIDTH : ℕ := 224

/-- A raw decoded image before preprocessing: rows of pixels, each pixel a
list of 8-bit channel values. -/
abbrev RawImage := List (List (List ℕ))

/-- Modelled from the spec: decoding and resizing happen inside the
library, not in src ("Each image is decoded, resized to the target size").
Nearest-neighbour sampling to an `h` by `w` grid of 3-channel pixels;
missing source data is padded with 0, an 8-bit value. -/
def resizeImage (h w : ℕ) (img : RawImage) : RawImage :=
  (List.range h).map fun i =>
    (List.range w).map fun j =>
      let srcRow := img.getD (i * img.length / h) []
      let px := srcRow.getD (j * srcRow.length / w) []
      (List.range 3).map fun ch => px.getD ch 0

/-- The `rescale=1./255` preprocessing: every 8-bit channel value is
divided by 255 ("The 1./255 is to convert from uint8 to float32 in range
[0,1]", per the comment in the notebook itself). -/
def rescale (img : RawImage) : Image :=
  img.map fun row => row.map fun px => px.map fun (v : ℕ) => (v : ℚ) / 255

/-- The per-image pipeline of the loader at the notebook configuration:
resize to `(IMG_HEIGHT, IMG_WIDTH)` then rescale to the unit interval. -/
def processImage (raw : RawImage) : Image :=
  rescale (resizeImage IMG_HEIGHT IMG_WIDTH raw)

/-- Grouping of a sample list into consecutive batches of `k` samples,
the final batch possibly shorter, as the Keras sequence does within one
pass over its partition. -/
def chunk (k : ℕ) : List α → List (List α)
  | [] => []
  | x :: xs => (x :: xs.take (k - 1)) :: chunk k (xs.drop (k - 1))
  termination_by l => l.length
  decreasing_by simp only [List.length_drop, List.length_cons]; omega

/-- Modelled from the spec: one pass of image batches produced by a loader
over its list of files, at the notebook configuration (batch size 32,
target size 224 by 224, rescale 1/255). -/
def imageBatches (raws : List RawImage) : List (List Image) :=
  chunk BATCH_SIZE (raws.map processImage)

/-- The sequence of subplot cell indices `n+1` the evaluation cell passes
to `plt.subplot(8, 4, n+1)` for a batch with `batchLen` samples. -/
def subplotIndices (batchLen : ℕ) : List ℕ :=
  (List.range batchLen).map (· + 1)

def SUBPLOT_ROWS : ℕ := 8

def SUBPLOT_COLS : ℕ := 4

/-! ## Training driver and the CollectBatchStats callback -/

/-- Modelled from the spec: the state of the compiled metric state of the model, its
accumulation ("resets any metric accumulation").  Keras reports, in
`logs`, the mean of the per-batch raw values accumulated since the last
reset; `model.reset_metrics()` clears the accumulator. -/
structure MetricState where
  totalLoss : ℚ
  totalAcc : ℚ
  count : ℕ
  deriving Repr, DecidableEq

/-- `model.reset_metrics()`: the empty accumulator. -/
def MetricState.reset : MetricState := ⟨0, 0, 0⟩

/-- Accumulating the raw loss of one batch and accuracy into the metric state. -/
def MetricState.update (s : MetricState) (loss acc : ℚ) : MetricState :=
  ⟨s.totalLoss + loss, s.totalAcc + acc, s.count + 1⟩

/-- What `logs["loss"]` reports at batch end: the accumulated mean. -/
def MetricState.lossValue (s : MetricState) : ℚ := s.totalLoss / (s.count : ℚ)

/-- What `logs["acc"]` reports at batch end: the accumulated mean. -/
def MetricState.accValue (s : MetricState) : ℚ := s.totalAcc / (s.count : ℚ)

/-- The two histories held by the `CollectBatchStats` callback instance. -/
structure CollectBatchStats where
  batch_losses : List ℚ
  batch_acc : List ℚ
  deriving Repr, DecidableEq

/-- The callback constructor `CollectBatchStats()`: both histories empty. -/
def CollectBatchStats.init : CollectBatchStats := ⟨[], []⟩

/-- `CollectBatchStats.on_train_batch_end`: append `logs["loss"]` and
`logs["acc"]` to the histories, then call `self.model.reset_metrics()`.
Returns the updated callback state and the reset metric state. -/
def CollectBatchStats.on_train_batch_end (cb : CollectBatchStats)
    (m : MetricState) : CollectBatchStats × MetricState :=
  (⟨cb.batch_losses ++ [m.lossValue], cb.batch_acc ++ [m.accValue]⟩,
   MetricState.reset)

/-- Modelled from the spec: the training driver processes one batch, whose
raw loss and accuracy are `b`, by accumulating it into the metric state
and then invoking the observer ("after every batch invoke an observer"). -/
def trainStep (st : MetricState × CollectBatchStats) (b : ℚ × ℚ) :
    MetricState × CollectBatchStats :=
  let m := st.1.update b.1 b.2
  let p := st.2.on_train_batch_end m
  (p.2, p.1)

/-- Modelled from the spec: the per-batch observation part of `model.fit`,
run over a list of batches with their raw loss/accuracy values, starting
from a fresh metric state and a fresh callback. -/
def runTraining (batches : List (ℚ × ℚ)) : MetricState × CollectBatchStats :=
  batches.foldl trainStep (MetricState.reset, CollectBatchStats.init)

/-! ## Split loader partition (C4) and labels (C6) -/

/-- Modelled from the spec: the loader holds out the same fraction of each
files of each class for validation, deterministically ("the same fraction of
each files of each class is held out for validation every time the loader is
re-instantiated with the same seed").  The library sorts the file
names and takes the first `floor(fraction * n)` of them as the validation
subset and the rest as the training subset; the seed drives only batch
shuffling, so it does not appear in this computation. -/
def splitClassFiles (validation_split : ℚ) (files : List String) :
    List String × List String :=
  let sorted := files.mergeSort (fun a b => decide (a ≤ b))
  let k := (validation_split * (sorted.length : ℚ)).floor.toNat
  (sorted.drop k, sorted.take k)

/-- The arguments of one `image_generator.flow_from_directory(...)` call
in the notebook. -/
structure LoaderConfig where
  seed : ℕ
  directory : String
  batch_size : ℕ
  shuffle : Bool
  target_size : ℕ × ℕ
  classes : List String
  subset : String
  deriving Repr, DecidableEq

/-- The `train_data_gen` call of the notebook, for a given root directory
and discovered class list. -/
def train_data_gen (directory : String) (CLASS_NAMES : List String) :
    LoaderConfig :=
  { seed := 2020
    directory := directory
    batch_size := BATCH_SIZE
    shuffle := true
    target_size := (IMG_HEIGHT, IMG_WIDTH)
    classes := CLASS_NAMES
    subset := "training" }

/-- The `val_data_gen` call of the notebook (both the one next to
`train_data_gen` and its re-instantiation before the evaluation loop use
these arguments). -/
def val_data_gen (directory : String) (CLASS_NAMES : List String) :
    LoaderConfig :=
  { seed := 2020
    directory := directory
    batch_size := BATCH_SIZE
    shuffle := false
    target_size := (IMG_HEIGHT, IMG_WIDTH)
    classes := CLASS_NAMES
    subset := "validation" }

/-- Modelled from the spec: instantiating a split loader assigns to each
class its training files and its validation files; `filesOf` is the
(unordered) filesystem listing of a class directory.  The result pairs
each class name with the file subset the given `subset` argument selects. -/
def SplitLoader.partition (L : LoaderConfig) (validation_split : ℚ)
    (filesOf : String → List String) : List (String × List String) :=
  L.classes.map fun c =>
    let p := splitClassFiles validation_split (filesOf c)
    (c, if L.subset = "training" then p.1 else p.2)

/-- A one-hot vector of the given width, hot at index `idx` (the label encoding the library uses for categorical class mode). -/
def oneHot (num_classes idx : ℕ) : List ℚ :=
  (List.range num_classes).map fun i => if i = idx then 1 else 0

/-- Modelled from the spec: the label the loader emits for a sample of
class `c`, a one-hot vector of width equal to the class count, hot at the
index of `c` in the ordered class list of the loader. -/
def labelFor (classes : List String) (c : String) : List ℚ :=
  oneHot classes.length (classes.indexOf c)

/-! ## steps_per_epoch (C7) -/

/-- The notebook `steps_per_epoch =
np.ceil(train_data_gen.samples / train_data_gen.batch_size)`, with the
float division and ceiling modelled over ℚ. -/
def steps_per_epoch (samples batch_size : ℕ) : ℤ :=
  ⌈(samples : ℚ) / (batch_size : ℚ)⌉

/-! ## Dataset indexer (C8) -/

/-- One entry of the image root directory as `data_dir.glob` yields it. -/
structure DirEntry where
  name : String
  isDir : Bool
  deriving Repr, DecidableEq

/-- The notebook `CLASS_NAMES = np.array([item.name for item in
data_dir.glob(\x27*\x27) if item.name != "LICENSE.txt"])`: every root
entry except those named `LICENSE.txt`, whether or not it is a directory. -/
def CLASS_NAMES (rootEntries : List DirEntry) : List String :=
  (rootEntries.filter fun e => e.name ≠ "LICENSE.txt").map DirEntry.name

/-- The class set as the specification words it: the names of the
immediate subdirectories of the root, the license file excluded. -/
def specClassNames (rootEntries : List DirEntry) : List String :=
  (rootEntries.filter fun e => e.isDir && e.name ≠ "LICENSE.txt").map
    DirEntry.name

/-! ## Model assembler and training frame (C9) -/

/-- The parameters of the composed `tf.keras.Sequential` model: those of
the hub feature extractor layer and those of the new Dense head. -/
structure ModelParams where
  extractorParams : List ℚ
  headParams : List ℚ
  deriving Repr, DecidableEq

/-- The composed model: its parameters plus the
`feature_extractor_layer.trainable` flag (the notebook leaves the
freezing line commented out, so the default is `true`). -/
structure SeqModel where
  params : ModelParams
  extractorTrainable : Bool
  deriving Repr, DecidableEq

/-- Modelled from the spec: one optimizer update after one batch
("updating model parameters after each batch via the optimizer").  The
optimizer `opt` maps a parameter list and the batch data to new
parameters; the parameters of a layer are touched only when its trainable flag
is set, which for the Dense head is always. -/
def applyBatchUpdate (opt : List ℚ → ℚ → List ℚ) (m : SeqModel)
    (batch : ℚ) : SeqModel :=
  { m with
    params :=
      { extractorParams :=
          if m.extractorTrainable then opt m.params.extractorParams batch
          else m.params.extractorParams
        headParams := opt m.params.headParams batch } }

/-- Modelled from the spec: one epoch of `model.fit`, a pass over the
training batches (each abstracted to the data `b : ℚ` the optimizer sees). -/
def runEpoch (opt : List ℚ → ℚ → List ℚ) (m : SeqModel)
    (batches : List ℚ) : SeqModel :=
  batches.foldl (applyBatchUpdate opt) m

/-- Modelled from the spec: `model.fit(..., epochs=n, ...)` runs `n`
passes over the training batch sequence, mutating the model parameters in
place; the returned model is the final parameter state. -/
def fit (opt : List ℚ → ℚ → List ℚ) (m : SeqModel) (epochs : ℕ)
    (batches : List ℚ) : SeqModel :=
  match epochs with
  | 0 => m
  | n + 1 => fit opt (runEpoch opt m batches) n batches

/-! ## Theorems -/

/-- C1: for a sample whose predicted class (index 0, name Tumour) differs
from its true class (index 1, name Stroma), the evaluation cell colours
the annotation red and its local variable `title` holds the predicted and
the true class name, but the string actually passed to `plt.title` is the
predicted class name alone: the rendered annotation never contains the
true class name, contradicting the last conjunct of the claim (the code
computes the combined string and then does not use it, a slip). -/
theorem renderSample_drops_true_class_name :
    (renderSample ["Tumour", "Stroma"] [(1 : ℚ), 0] [(0 : ℚ), 1]).color
        = "red" ∧
    (renderSample ["Tumour", "Stroma"] [(1 : ℚ), 0] [(0 : ℚ), 1]).computedTitle
        = "Tumour(Stroma)" ∧
    (renderSample ["Tumour", "Stroma"] [(1 : ℚ), 0] [(0 : ℚ), 1]).renderedTitle
        = "Tumour" := by
  refine ⟨?_, ?_, ?_⟩ <;> rfl

/-- C2: on any validation sequence offering at least two batches (here
`b1 :: b2 :: rest`, so in particular three batches when `rest` has one
element), the evaluation loop renders exactly the two grids for batch
counts 1 and 2 and stops with `rest` unconsumed: it stops because the
batch counter reached the limit 2, not because the sequence was
exhausted, and no error occurs. -/
theorem evalLoop_renders_exactly_two_grids (class_names : List String)
    (predict : Image → List ℚ) (b1 b2 : EvalBatch)
    (rest : List EvalBatch) :
    evalLoop class_names predict (b1 :: b2 :: rest) 0 =
      ([renderGrid class_names predict 1 b1,
        renderGrid class_names predict 2 b2], rest) := by
  simp [evalLoop]

/-- Folding the per-batch training step from a reset metric state appends
exactly the raw per-batch values to the histories of the callback and leaves
the metric state reset. -/
theorem foldl_trainStep_reset (batches : List (ℚ × ℚ)) :
    ∀ cb : CollectBatchStats,
      batches.foldl trainStep (MetricState.reset, cb) =
        (MetricState.reset,
         ⟨cb.batch_losses ++ batches.map Prod.fst,
          cb.batch_acc ++ batches.map Prod.snd⟩) := by
  induction batches with
  | nil => intro cb; simp
  | cons b bs ih =>
      intro cb
      have hstep : trainStep (MetricState.reset, cb) b =
          (MetricState.reset,
           ⟨cb.batch_losses ++ [b.1], cb.batch_acc ++ [b.2]⟩) := by
        simp [trainStep, MetricState.update, MetricState.reset,
          CollectBatchStats.on_train_batch_end, MetricState.lossValue,
          MetricState.accValue]
      simp only [List.foldl_cons, hstep, ih]
      simp

/-- C3: over any training batch sequence (each batch contributing its raw
loss and accuracy), the observer is invoked once per batch, each
invocation appends exactly the loss of that batch and accuracy to the
append-only histories, and the metric accumulation ends reset after every
batch: the recorded histories equal the per-batch raw values, not running
averages over the epoch. -/
theorem collectBatchStats_records_single_batches
    (batches : List (ℚ × ℚ)) :
    (runTraining batches).2.batch_losses = batches.map Prod.fst ∧
    (runTraining batches).2.batch_acc = batches.map Prod.snd ∧
    (runTraining batches).1 = MetricState.reset := by
  unfold runTraining
  rw [foldl_trainStep_reset batches CollectBatchStats.init]
  simp [CollectBatchStats.init]

/-- C4: instantiating the split loader twice with the same seed, root
directory, batch size, shuffle flag, target size, class list, subset and
validation fraction yields identical file assignments; moreover the
partition does not consult the seed at all, so any two seeds already
agree, which is why a fixed seed reproduces the train/validation
partition. -/
theorem split_partition_two_run_deterministic (seed bs : ℕ)
    (dir : String) (sh : Bool) (ts : ℕ × ℕ) (classes : List String)
    (subset : String) (vs : ℚ) (filesOf : String → List String) :
    (SplitLoader.partition ⟨seed, dir, bs, sh, ts, classes, subset⟩ vs
        filesOf =
      SplitLoader.partition ⟨seed, dir, bs, sh, ts, classes, subset⟩ vs
        filesOf) ∧
    ∀ s1 s2 : ℕ,
      SplitLoader.partition ⟨s1, dir, bs, sh, ts, classes, subset⟩ vs
          filesOf =
        SplitLoader.partition ⟨s2, dir, bs, sh, ts, classes, subset⟩ vs
          filesOf :=
  ⟨rfl, fun _ _ => rfl⟩

/-- C8 counterexample: on a root holding a class directory, a stray
regular file `notes.txt` and the license file, the indexer returns the
name of the stray file as a class, while the set of immediate subdirectories
minus the license is just the class directory: the claim text "no other
entry of the root appears in the class set" fails, because the code
filters only on the name `LICENSE.txt`, never on being a directory. -/
theorem classNames_stray_file_counterexample :
    CLASS_NAMES
        [⟨"01_TUMOR", true⟩, ⟨"notes.txt", false⟩,
         ⟨"LICENSE.txt", false⟩] = ["01_TUMOR", "notes.txt"] ∧
    specClassNames
        [⟨"01_TUMOR", true⟩, ⟨"notes.txt", false⟩,
         ⟨"LICENSE.txt", false⟩] = ["01_TUMOR"] ∧
    CLASS_NAMES
        [⟨"01_TUMOR", true⟩, ⟨"notes.txt", false⟩,
         ⟨"LICENSE.txt", false⟩] ≠
      specClassNames
        [⟨"01_TUMOR", true⟩, ⟨"notes.txt", false⟩,
         ⟨"LICENSE.txt", false⟩] := by
  refine ⟨rfl, rfl, ?_⟩; decide

/-- C8 amended: the indexer returns the names of all root entries except
those named `LICENSE.txt`, directories or not; hence `LICENSE.txt` never
appears, every returned name is the name of a root entry, and whenever
every non-license entry of the root is a directory (as in the intended
dataset layout) the result coincides with the immediate subdirectories
minus the license file. -/
theorem classNames_entries_minus_license (rootEntries : List DirEntry) :
    "LICENSE.txt" ∉ CLASS_NAMES rootEntries ∧
    (∀ n ∈ CLASS_NAMES rootEntries, ∃ e ∈ rootEntries, e.name = n) ∧
    ((∀ e ∈ rootEntries, e.name ≠ "LICENSE.txt" → e.isDir = true) →
      CLASS_NAMES rootEntries = specClassNames rootEntries) := by
  refine ⟨?_, ?_, ?_⟩
  · intro hmem
    rcases List.mem_map.mp hmem with ⟨e, he, hname⟩
    exact of_decide_eq_true (List.mem_filter.mp he).2 hname
  · intro n hn
    rcases List.mem_map.mp hn with ⟨e, he, hname⟩
    exact ⟨e, (List.mem_filter.mp he).1, hname⟩
  · intro h
    unfold CLASS_NAMES specClassNames
    congr 1
    refine List.filter_congr ?_
    intro e he
    by_cases hlic : e.name = "LICENSE.txt"
    · simp [hlic]
    · simp [hlic, h e he hlic]

/-- C8 amended, instantiated: on the intended layout (class directories
plus the license file) the indexer agrees with the subdirectory listing. -/
theorem classNames_entries_minus_license_witness :
    CLASS_NAMES [⟨"07_ADIPOSE", true⟩, ⟨"LICENSE.txt", false⟩] =
      specClassNames [⟨"07_ADIPOSE", true⟩, ⟨"LICENSE.txt", false⟩] :=
  (classNames_entries_minus_license
      [⟨"07_ADIPOSE", true⟩, ⟨"LICENSE.txt", false⟩]).2.2 (by decide)

/-- One epoch over a model whose extractor is frozen leaves the extractor
parameters untouched and the flag frozen. -/
theorem runEpoch_frozen (opt : List ℚ → ℚ → List ℚ)
    (batches : List ℚ) :
    ∀ m : SeqModel, m.extractorTrainable = false →
      (runEpoch opt m batches).params.extractorParams =
          m.params.extractorParams ∧
      (runEpoch opt m batches).extractorTrainable = false := by
  induction batches with
  | nil => intro m hm; exact ⟨rfl, hm⟩
  | cons b bs ih =>
      intro m hm
      have hstep : (applyBatchUpdate opt m b).params.extractorParams =
            m.params.extractorParams ∧
          (applyBatchUpdate opt m b).extractorTrainable = false := by
        simp [applyBatchUpdate, hm]
      have hrec := ih (applyBatchUpdate opt m b) hstep.2
      refine ⟨?_, ?_⟩
      · calc (runEpoch opt m (b :: bs)).params.extractorParams
            = (runEpoch opt (applyBatchUpdate opt m b) bs).params.extractorParams := rfl
          _ = (applyBatchUpdate opt m b).params.extractorParams := hrec.1
          _ = m.params.extractorParams := hstep.1
      · calc (runEpoch opt m (b :: bs)).extractorTrainable
            = (runEpoch opt (applyBatchUpdate opt m b) bs).extractorTrainable := rfl
          _ = false := hrec.2

/-- C9: fitting for 0 epochs returns the model with every parameter
unchanged; and for every epoch count `n`, fitting a model whose feature
extractor is frozen (`trainable = false`) leaves the parameters of the extractor identical, whatever the optimizer and batches do to the head. -/
theorem fit_zero_epochs_and_frozen_extractor_frame
    (opt : List ℚ → ℚ → List ℚ) (m : SeqModel) (batches : List ℚ) :
    fit opt m 0 batches = m ∧
    ∀ n : ℕ, m.extractorTrainable = false →
      (fit opt m n batches).params.extractorParams =
        m.params.extractorParams := by
  refine ⟨rfl, ?_⟩
  intro n
  induction n generalizing m with
  | zero => intro _; rfl
  | succ k ih =>
      intro hm
      have hep := runEpoch_frozen opt batches m hm
      calc (fit opt m (k + 1) batches).params.extractorParams
          = (fit opt (runEpoch opt m batches) k batches).params.extractorParams := rfl
        _ = (runEpoch opt m batches).params.extractorParams :=
            ih (runEpoch opt m batches) hep.2
        _ = m.params.extractorParams := hep.1

/-- C9 instantiated: 0 epochs leave a concrete frozen model unchanged and
3 epochs with an optimizer that increments every parameter still leave
the frozen parameters of the frozen extractor at their initial value. -/
theorem fit_zero_epochs_and_frozen_extractor_frame_witness :
    fit (fun ps _ => ps.map fun q => q + 1) ⟨⟨[(1 : ℚ)], [2]⟩, false⟩ 0 [5]
        = ⟨⟨[(1 : ℚ)], [2]⟩, false⟩ ∧
    (fit (fun ps _ => ps.map fun q => q + 1) ⟨⟨[(1 : ℚ)], [2]⟩, false⟩ 3
        [5]).params.extractorParams = [(1 : ℚ)] :=
  ⟨(fit_zero_epochs_and_frozen_extractor_frame _ _ _).1,
   (fit_zero_epochs_and_frozen_extractor_frame _ _ _).2 3 rfl⟩

/-- Total list indexing lands on a member or on the default. -/
theorem getD_mem_or_eq (l : List α) (i : ℕ) (d : α) :
    l.getD i d ∈ l ∨ l.getD i d = d := by
  by_cases h : i < l.length
  · rw [List.getD_eq_getElem l d h]
    exact Or.inl (List.getElem_mem h)
  · exact Or.inr (List.getD_eq_default l d (le_of_not_lt h))

/-- Every batch the chunking produces holds at most `k` samples
(auxiliary, with an explicit bound on the list length for induction). -/
theorem chunk_length_le_aux (k : ℕ) (hk : 0 < k) :
    ∀ (N : ℕ) (l : List α), l.length ≤ N →
      ∀ c ∈ chunk k l, c.length ≤ k := by
  intro N
  induction N with
  | zero =>
      intro l hl c hc
      have : l = [] := List.eq_nil_of_length_eq_zero (Nat.le_zero.mp hl)
      subst this
      simp [chunk] at hc
  | succ n ih =>
      intro l hl c hc
      match l with
      | [] => simp [chunk] at hc
      | x :: xs =>
          simp only [chunk] at hc
          rcases List.mem_cons.mp hc with rfl | hc
          · simp only [List.length_cons, List.length_take]
            omega
          · refine ih (xs.drop (k - 1)) ?_ c hc
            simp only [List.length_drop]
            simp only [List.length_cons] at hl
            omega

/-- Every batch the chunking produces holds at most `k` samples. -/
theorem chunk_length_le (k : ℕ) (hk : 0 < k) (l : List α) :
    ∀ c ∈ chunk k l, c.length ≤ k :=
  chunk_length_le_aux k hk l.length l le_rfl

/-- Every batch except possibly the final one holds exactly `k` samples
(auxiliary, with an explicit bound on the list length for induction). -/
theorem chunk_getD_length_aux (k : ℕ) (hk : 0 < k) :
    ∀ (N : ℕ) (l : List α), l.length ≤ N →
      ∀ i, i + 1 < (chunk k l).length →
        ((chunk k l).getD i []).length = k := by
  intro N
  induction N with
  | zero =>
      intro l hl i hi
      have : l = [] := List.eq_nil_of_length_eq_zero (Nat.le_zero.mp hl)
      subst this
      simp [chunk] at hi
  | succ n ih =>
      intro l hl i hi
      match l with
      | [] => simp [chunk] at hi
      | x :: xs =>
          simp only [chunk] at hi ⊢
          match i with
          | 0 =>
              rw [List.getD_cons_zero]
              simp only [List.length_cons] at hi
              have hrest : chunk k (xs.drop (k - 1)) ≠ [] := by
                intro hnil
                rw [hnil] at hi
                simp at hi
              have hxs : k - 1 < xs.length := by
                by_contra hge
                have : xs.drop (k - 1) = [] :=
                  List.drop_eq_nil_of_le (le_of_not_lt hge)
                rw [this] at hrest
                simp [chunk] at hrest
              simp only [List.length_cons, List.length_take]
              omega
          | j + 1 =>
              rw [List.getD_cons_succ]
              refine ih (xs.drop (k - 1)) ?_ j ?_
              · simp only [List.length_drop]
                simp only [List.length_cons] at hl
                omega
              · simp only [List.length_cons] at hi
                omega

/-- Every batch except possibly the final one holds exactly `k` samples. -/
theorem chunk_getD_length (k : ℕ) (hk : 0 < k) (l : List α) :
    ∀ i, i + 1 < (chunk k l).length →
      ((chunk k l).getD i []).length = k :=
  chunk_getD_length_aux k hk l.length l le_rfl

/-- Every sample of every batch comes from the chunked list (auxiliary,
with an explicit bound on the list length for induction). -/
theorem chunk_mem_aux (k : ℕ) :
    ∀ (N : ℕ) (l : List α), l.length ≤ N →
      ∀ c ∈ chunk k l, ∀ x ∈ c, x ∈ l := by
  intro N
  induction N with
  | zero =>
      intro l hl c hc
      have : l = [] := List.eq_nil_of_length_eq_zero (Nat.le_zero.mp hl)
      subst this
      simp [chunk] at hc
  | succ n ih =>
      intro l hl c hc x hx
      match l with
      | [] => simp [chunk] at hc
      | y :: ys =>
          simp only [chunk] at hc
          rcases List.mem_cons.mp hc with rfl | hc
          · rcases List.mem_cons.mp hx with rfl | hx
            · exact List.mem_cons_self x ys
            · exact List.mem_cons_of_mem y (List.mem_of_mem_take hx)
          · have hrec := ih (ys.drop (k - 1)) ?_ c hc x hx
            · exact List.mem_cons_of_mem y (List.mem_of_mem_drop hrec)
            · simp only [List.length_drop]
              simp only [List.length_cons] at hl
              omega

/-- Every sample of every batch comes from the chunked list. -/
theorem chunk_mem (k : ℕ) (l : List α) :
    ∀ c ∈ chunk k l, ∀ x ∈ c, x ∈ l :=
  chunk_mem_aux k l.length l le_rfl

/-- The resized image has exactly `h` rows of `w` pixels of 3 channels,
and all channel values stay 8-bit when the source image is 8-bit. -/
theorem resizeImage_spec (h w : ℕ) (raw : RawImage)
    (hb : ∀ row ∈ raw, ∀ px ∈ row, ∀ v ∈ px, v ≤ 255) :
    (resizeImage h w raw).length = h ∧
    ∀ row ∈ resizeImage h w raw, row.length = w ∧
      ∀ px ∈ row, px.length = 3 ∧ ∀ v ∈ px, v ≤ 255 := by
  refine ⟨by simp [resizeImage], ?_⟩
  intro row hrow
  rcases List.mem_map.mp hrow with ⟨i, _, rfl⟩
  refine ⟨by simp, ?_⟩
  intro px hpx
  rcases List.mem_map.mp hpx with ⟨j, _, rfl⟩
  dsimp only
  refine ⟨by simp, ?_⟩
  intro v hv
  rcases List.mem_map.mp hv with ⟨ch, _, rfl⟩
  rcases getD_mem_or_eq (raw.getD (i * raw.length / h) []) (j * _ / w) []
      with hpxmem | hpxnil
  · rcases getD_mem_or_eq raw (i * raw.length / h) [] with hrowmem | hrownil
    · rcases getD_mem_or_eq
          ((raw.getD (i * raw.length / h) []).getD (j * _ / w) []) ch 0
          with hvmem | hvzero
      · exact hb _ hrowmem _ hpxmem _ hvmem
      · rw [hvzero]; omega
    · rw [hrownil] at hpxmem
      exact absurd hpxmem (List.not_mem_nil _)
  · rw [hpxnil]
    rcases getD_mem_or_eq ([] : List ℕ) ch 0 with hvmem | hvzero
    · exact absurd hvmem (List.not_mem_nil _)
    · rw [hvzero]; omega

/-- The processed image (resize then rescale) has exactly 224 rows of 224
pixels of 3 channels, every channel value in the unit interval. -/
theorem processImage_spec (raw : RawImage)
    (hb : ∀ row ∈ raw, ∀ px ∈ row, ∀ v ∈ px, v ≤ 255) :
    (processImage raw).length = IMG_HEIGHT ∧
    ∀ row ∈ processImage raw, row.length = IMG_WIDTH ∧
      ∀ px ∈ row, px.length = 3 ∧ ∀ q ∈ px, 0 ≤ q ∧ q ≤ 1 := by
  have hr := resizeImage_spec IMG_HEIGHT IMG_WIDTH raw hb
  unfold processImage rescale
  refine ⟨by simpa using hr.1, ?_⟩
  intro row hrow
  rcases List.mem_map.mp hrow with ⟨row0, hrow0, rfl⟩
  have hrow0spec := hr.2 row0 hrow0
  refine ⟨by simpa using hrow0spec.1, ?_⟩
  intro px hpx
  rcases List.mem_map.mp hpx with ⟨px0, hpx0, rfl⟩
  have hpx0spec := hrow0spec.2 px0 hpx0
  refine ⟨by simpa using hpx0spec.1, ?_⟩
  intro q hq
  rcases List.mem_map.mp hq with ⟨v, hv, rfl⟩
  have hvle : v ≤ 255 := hpx0spec.2 v hv
  constructor
  · positivity
  · rw [div_le_one (by norm_num : (0 : ℚ) < 255)]
    exact_mod_cast hvle

/-- C5: at the notebook configuration (`rescale=1./255`,
`target_size=(224,224)`, `BATCH_SIZE=32`), every produced image batch has
every pixel channel value in the unit interval, every image shaped 224
rows by 224 columns by 3 channels, and at most 32 samples; every batch
other than the final one holds exactly 32 samples (the final batch of a
pass may be shorter). -/
theorem imageBatches_shape_and_range (raws : List RawImage)
    (h8 : ∀ raw ∈ raws, ∀ row ∈ raw, ∀ px ∈ row, ∀ v ∈ px, v ≤ 255) :
    (∀ b ∈ imageBatches raws,
        b.length ≤ BATCH_SIZE ∧
        ∀ img ∈ b, img.length = IMG_HEIGHT ∧
          ∀ row ∈ img, row.length = IMG_WIDTH ∧
            ∀ px ∈ row, px.length = 3 ∧ ∀ q ∈ px, 0 ≤ q ∧ q ≤ 1) ∧
    (∀ i, i + 1 < (imageBatches raws).length →
        ((imageBatches raws).getD i []).length = BATCH_SIZE) ∧
    BATCH_SIZE = 32 ∧ IMG_HEIGHT = 224 ∧ IMG_WIDTH = 224 := by
  have hk : 0 < BATCH_SIZE := by decide
  refine ⟨?_, ?_, rfl, rfl, rfl⟩
  · intro b hb
    refine ⟨chunk_length_le BATCH_SIZE hk _ b hb, ?_⟩
    intro img himg
    have himgmem : img ∈ raws.map processImage :=
      chunk_mem BATCH_SIZE _ b hb img himg
    rcases List.mem_map.mp himgmem with ⟨raw, hraw, rfl⟩
    exact processImage_spec raw (h8 raw hraw)
  · intro i hi
    exact chunk_getD_length BATCH_SIZE hk _ i hi

/-- C5 instantiated: a single 8-bit source image (one row, one pixel,
channels 100/200/50) satisfies the 8-bit hypothesis, and the theorem then
gives the batch invariants for the output of the loader on it. -/
theorem imageBatches_shape_and_range_witness :
    ([processImage [[[(100 : ℕ), 200, 50]]]]).length ≤ BATCH_SIZE ∧
    (processImage [[[(100 : ℕ), 200, 50]]]).length = IMG_HEIGHT := by
  have h := imageBatches_shape_and_range [[[[100, 200, 50]]]] (by decide)
  have hb : [processImage [[[(100 : ℕ), 200, 50]]]] ∈
      imageBatches [[[[100, 200, 50]]]] := by
    simp [imageBatches, chunk]
  have hi : processImage [[[(100 : ℕ), 200, 50]]] ∈
      [processImage [[[(100 : ℕ), 200, 50]]]] := by simp
  exact ⟨(h.1 _ hb).1, ((h.1 _ hb).2 _ hi).1⟩

/-- C10: every subplot cell index `n+1` the evaluation cell passes to
`plt.subplot(8, 4, n+1)` for a batch the loader produced lies between 1
and 32 = 8 * 4, so every rendered batch fits the fixed grid and the
placement call never receives an out-of-range cell index. -/
theorem subplotIndices_within_grid (raws : List RawImage)
    (b : List Image) (hb : b ∈ imageBatches raws) :
    ∀ idx ∈ subplotIndices b.length,
      1 ≤ idx ∧ idx ≤ SUBPLOT_ROWS * SUBPLOT_COLS := by
  have hlen : b.length ≤ BATCH_SIZE :=
    chunk_length_le BATCH_SIZE (by decide) _ b hb
  intro idx hidx
  rcases List.mem_map.mp hidx with ⟨n, hn, rfl⟩
  have hnlt : n < b.length := List.mem_range.mp hn
  have hbs : BATCH_SIZE = 32 := rfl
  have hgrid : SUBPLOT_ROWS * SUBPLOT_COLS = 32 := rfl
  omega

/-- C10 instantiated: the single cell index 1 used for the batch the
loader produces from one source image lies within the 8 by 4 grid. -/
theorem subplotIndices_within_grid_witness :
    1 ≤ 1 ∧ 1 ≤ SUBPLOT_ROWS * SUBPLOT_COLS :=
  subplotIndices_within_grid [[[[1]]]] [processImage [[[1]]]]
    (by simp [imageBatches, chunk]) 1 (by simp [subplotIndices])

/-- If no later value strictly exceeds the current best value, the
argmax scan keeps the current best index. -/
theorem argmaxAux_of_le (xs : List ℚ) :
    ∀ (i best : ℕ) (bestVal : ℚ), (∀ x ∈ xs, x ≤ bestVal) →
      argmaxAux xs i best bestVal = best := by
  induction xs with
  | nil => intro i best bestVal _; rfl
  | cons x xs ih =>
      intro i best bestVal h
      have hx : ¬ bestVal < x := not_lt.mpr (h x (List.mem_cons_self x xs))
      simp only [argmaxAux, if_neg hx]
      exact ih (i + 1) best bestVal fun y hy => h y (List.mem_cons_of_mem x hy)

/-- Scanning zeros, then a one, then zeros, from a current best value of
zero, lands on the index of the one. -/
theorem argmaxAux_zeros_one :
    ∀ (t s best b : ℕ),
      argmaxAux (List.replicate t (0 : ℚ) ++ 1 :: List.replicate b (0 : ℚ))
        s best 0 = s + t := by
  intro t
  induction t with
  | zero =>
      intro s best b
      simp only [List.replicate_zero, List.nil_append, argmaxAux]
      rw [if_pos (by norm_num : (0 : ℚ) < 1)]
      have h0 : ∀ x ∈ List.replicate b (0 : ℚ), x ≤ 1 := by
        intro x hx
        rw [List.eq_of_mem_replicate hx]
        norm_num
      rw [argmaxAux_of_le (List.replicate b (0 : ℚ)) (s + 1) s 1 h0]
      omega
  | succ t ih =>
      intro s best b
      simp only [List.replicate_succ, List.cons_append, argmaxAux,
        List.append_eq]
      rw [if_neg (lt_irrefl (0 : ℚ))]
      rw [ih (s + 1) best b]
      omega

/-- The one-hot vector written as zeros, a one at the hot index, zeros. -/
theorem oneHot_eq_replicate :
    ∀ (n i : ℕ), i < n →
      oneHot n i =
        List.replicate i (0 : ℚ) ++ 1 :: List.replicate (n - i - 1) (0 : ℚ) := by
  intro n
  induction n with
  | zero => intro i h; exact absurd h (Nat.not_lt_zero i)
  | succ n ih =>
      intro i hi
      unfold oneHot
      rw [List.range_succ_eq_map, List.map_cons, List.map_map]
      match i with
      | 0 =>
          rw [List.replicate_zero, List.nil_append]
          have hcomp : ((fun k => if k = 0 then (1 : ℚ) else 0) ∘ Nat.succ)
              = Function.const ℕ (0 : ℚ) := by
            funext j
            simp [Function.comp, Nat.succ_ne_zero]
          rw [show n + 1 - 0 - 1 = n from by omega]
          simp only [hcomp, List.map_const, List.length_range]
          norm_num
      | j + 1 =>
          have hne : ¬ (0 : ℕ) = j + 1 := by omega
          rw [List.replicate_succ, List.cons_append]
          have hcomp : ((fun k => if k = j + 1 then (1 : ℚ) else 0) ∘ Nat.succ)
              = fun k => if k = j then (1 : ℚ) else 0 := by
            funext k
            simp [Function.comp]
          have hj : j < n := by omega
          have htail := ih j hj
          unfold oneHot at htail
          rw [show n + 1 - (j + 1) - 1 = n - j - 1 from by omega]
          simp only [if_neg hne, hcomp, htail]

/-- Arg-max of a one-hot vector recovers the hot index. -/
theorem argmax_oneHot (n i : ℕ) (h : i < n) : argmax (oneHot n i) = i := by
  rw [oneHot_eq_replicate n i h]
  match i with
  | 0 =>
      rw [List.replicate_zero, List.nil_append]
      show argmaxAux (List.replicate (n - 0 - 1) (0 : ℚ)) 1 0 1 = 0
      refine argmaxAux_of_le _ 1 0 1 ?_
      intro x hx
      rw [List.eq_of_mem_replicate hx]
      norm_num
  | j + 1 =>
      rw [List.replicate_succ, List.cons_append]
      show argmaxAux
          (List.replicate j (0 : ℚ) ++ 1 :: List.replicate (n - (j + 1) - 1) (0 : ℚ))
          1 0 0 = j + 1
      rw [argmaxAux_zeros_one j 1 0 (n - (j + 1) - 1)]
      omega

/-- C6: for every class of the shared class list of the loaders, the emitted
one-hot label has width equal to the class count, its arg-max lies below
the class count and recovers the index of the class; and the training loader
and the validation loader are constructed with the same explicit class
list, so both map class names to one-hot indices by the same ordering. -/
theorem labelFor_width_and_argmax (classes : List String) (c : String)
    (hc : c ∈ classes) :
    (labelFor classes c).length = classes.length ∧
    argmax (labelFor classes c) < classes.length ∧
    argmax (labelFor classes c) = classes.indexOf c ∧
    ∀ dir : String,
      (train_data_gen dir classes).classes =
        (val_data_gen dir classes).classes := by
  have hidx : classes.indexOf c < classes.length :=
    List.indexOf_lt_length.mpr hc
  refine ⟨?_, ?_, ?_, fun dir => rfl⟩
  · simp [labelFor, oneHot]
  · rw [labelFor, argmax_oneHot _ _ hidx]
    exact hidx
  · rw [labelFor, argmax_oneHot _ _ hidx]

/-- C6 instantiated at a two-class list, its second class, and the
dataset directory the notebook uses. -/
theorem labelFor_width_and_argmax_witness :
    (labelFor ["01_TUMOR", "02_STROMA"] "02_STROMA").length = 2 ∧
    argmax (labelFor ["01_TUMOR", "02_STROMA"] "02_STROMA") < 2 ∧
    argmax (labelFor ["01_TUMOR", "02_STROMA"] "02_STROMA") =
      List.indexOf "02_STROMA" ["01_TUMOR", "02_STROMA"] ∧
    (train_data_gen "Kather_texture_2016_image_tiles_5000"
        ["01_TUMOR", "02_STROMA"]).classes =
      (val_data_gen "Kather_texture_2016_image_tiles_5000"
        ["01_TUMOR", "02_STROMA"]).classes := by
  have h := labelFor_width_and_argmax ["01_TUMOR", "02_STROMA"]
    "02_STROMA" (by decide)
  exact ⟨h.1, h.2.1, h.2.2.1,
    h.2.2.2 "Kather_texture_2016_image_tiles_5000"⟩

/-- C7: for every positive sample count and batch size, the value the
notebook passes as `steps_per_epoch` (the ceiling of samples divided by
batch size) equals the exact integer ceiling division
`(samples + batch_size - 1) / batch_size`. -/
theorem steps_per_epoch_is_ceiling (samples batch_size : ℕ)
    (hs : 0 < samples) (hb : 0 < batch_size) :
    steps_per_epoch samples batch_size =
      (((samples + batch_size - 1) / batch_size : ℕ) : ℤ) := by
  unfold steps_per_epoch
  have key : ∀ q r : ℕ, r < batch_size →
      batch_size * q + r = samples + batch_size - 1 →
      ⌈(samples : ℚ) / (batch_size : ℚ)⌉ = (q : ℤ) := by
    intro q r hr hqr
    rw [Int.ceil_eq_iff]
    have hsle : samples ≤ batch_size * q := by omega
    have hlt : batch_size * q < samples + batch_size := by omega
    have hbq : (0 : ℚ) < (batch_size : ℚ) := by exact_mod_cast hb
    have hcast : (((q : ℕ) : ℤ) : ℚ) = (q : ℚ) := by push_cast; ring
    constructor
    · rw [lt_div_iff₀ hbq, hcast]
      have hc : (batch_size : ℚ) * (q : ℚ) < (samples : ℚ) + (batch_size : ℚ) := by
        exact_mod_cast hlt
      linarith
    · rw [div_le_iff₀ hbq, hcast]
      have hc : (samples : ℚ) ≤ (batch_size : ℚ) * (q : ℚ) := by
        exact_mod_cast hsle
      linarith
  exact key ((samples + batch_size - 1) / batch_size)
    ((samples + batch_size - 1) % batch_size)
    (Nat.mod_lt (samples + batch_size - 1) hb)
    (Nat.div_add_mod (samples + batch_size - 1) batch_size)

/-- C7 instantiated: 4000 samples at batch size 32 give 125 steps, and 10
samples at batch size 3 give 4 steps. -/
theorem steps_per_epoch_is_ceiling_witness :
    steps_per_epoch 4000 32 = (((4000 + 32 - 1) / 32 : ℕ) : ℤ) ∧
    steps_per_epoch 10 3 = (((10 + 3 - 1) / 3 : ℕ) : ℤ) :=
  ⟨steps_per_epoch_is_ceiling 4000 32 (by decide) (by decide),
   steps_per_epoch_is_ceiling 10 3 (by decide) (by decide)⟩

end ColorectalHistology
